import Mathlib

/-!
Verification development for the site post generator
(`simple_main.py`, `batch_generate.py`, `telegram_bot.py`).

The Python code is shallowly embedded: Python strings become `String`
(or `List Char` where character-level reasoning is needed), JSON-like
dynamic values become the inductive `PyVal`, a parsed model response
becomes the record `PostData` whose fields are `Option PyVal`
(`Option.none` models an absent dictionary key), and Python functions
that may raise become functions into `Except String _` whose error
string names the Python exception class.  Network effects
(`requests.get/post`) are abstracted as oracle parameters giving the
response of each call; the control flow around them is translated
directly from the source.
-/

set_option maxRecDepth 4000
set_option maxHeartbeats 1000000

namespace SPG

/-! ## Python-like dynamic values -/

/-- Embedding of the JSON/Python values the generator passes around:
strings, (integer) numbers, lists, `None`, and booleans. -/
inductive PyVal where
  | str (s : String)
  | num (n : Int)
  | list (l : List PyVal)
  | null
  | bool (b : Bool)

mutual

/-- Python `repr`, restricted to the constructors of `PyVal`
(string escaping inside list renderings is not modelled; only
non-blankness of the rendering is ever used). -/
def pyRepr : PyVal → String
  | .str s => "'" ++ s ++ "'"
  | .num n => toString n
  | .list l => "[" ++ pyReprIn l ++ "]"
  | .null => "None"
  | .bool b => if b then "True" else "False"

/-- Comma-separated rendering of the elements of a Python list. -/
def pyReprIn : List PyVal → String
  | [] => ""
  | [x] => pyRepr x
  | x :: xs => pyRepr x ++ ", " ++ pyReprIn xs

end

/-- Python `str(...)` on a `PyVal`. -/
def pyStr : PyVal → String
  | .str s => s
  | v => pyRepr v

/-- Python truthiness of a `PyVal` (`bool(v)`). -/
def truthy : PyVal → Bool
  | .str s => !s.data.isEmpty
  | .num n => decide (n ≠ 0)
  | .list l => !l.isEmpty
  | .null => false
  | .bool b => b

/-- Python regex `\s` on the ASCII range (space, tab, newline, carriage
return, form feed, vertical tab); also used for `str.strip()`. -/
def pyWs (c : Char) : Bool :=
  decide (c.toNat = 32 ∨ c.toNat = 9 ∨ c.toNat = 10 ∨ c.toNat = 13 ∨
          c.toNat = 12 ∨ c.toNat = 11)

/-- Python `str.strip()` on a character list: removes leading and
trailing whitespace. -/
def pyStrip (l : List Char) : List Char :=
  ((l.dropWhile pyWs).reverse.dropWhile pyWs).reverse

/-- Python `len(v)`: defined for strings and lists, a `TypeError`
otherwise. -/
def pyLen : PyVal → Except String Nat
  | .str s => .ok s.length
  | .list l => .ok l.length
  | _ => .error "TypeError"

/-- Models `post_data.get(field, '')`: an absent key yields the empty
string. -/
def getOrEmptyStr (v : Option PyVal) : PyVal :=
  v.getD (.str "")

/-! ## Data model: parsed model output and per-site configuration -/

/-- A parsed model response (`post_data` in the source): each field is
`Option.none` when the JSON object has no such key. -/
structure PostData where
  title : Option PyVal := Option.none
  slug : Option PyVal := Option.none
  excerpt : Option PyVal := Option.none
  content : Option PyVal := Option.none
  category : Option PyVal := Option.none
  tags : Option PyVal := Option.none
  author : Option PyVal := Option.none
  read_time : Option PyVal := Option.none
  meta_title : Option PyVal := Option.none
  meta_description : Option PyVal := Option.none
  seo_keywords : Option PyVal := Option.none

/-- The slice of `SITE_CONFIGS[...]` that `validate_post_data` reads. -/
structure SiteConfig where
  name : String
  allowed_categories : List String
  default_category : String

/-- `SITE_CONFIGS['mfo']` restricted to the validated fields. -/
def mfoConfig : SiteConfig where
  name := "МФО Витрина"
  allowed_categories :=
    ["Инструкции", "Акции", "Требования", "Кредитная история",
     "Сравнение", "Советы", "Обзоры", "Личный опыт", "Юридические"]
  default_category := "Советы"

/-- `SITE_CONFIGS['hr']` restricted to the validated fields. -/
def hrConfig : SiteConfig where
  name := "Rabotaify"
  allowed_categories :=
    ["IT и карьера", "Зарплаты", "Поиск работы", "Собеседования",
     "Удалённая работа", "Образование", "Фриланс", "Soft skills",
     "Программирование", "Data Science", "DevOps", "Дизайн", "Менеджмент"]
  default_category := "IT и карьера"

/-! ## Character-level helpers shared by the validator and the slug
functions -/

/-- Python `str.lower()` restricted to the alphabets occurring in this
program: ASCII latin letters and Russian Cyrillic (`А`-`Я` and `Ё`).
Other characters are left unchanged. -/
def pyLower (c : Char) : Char :=
  if 65 ≤ c.toNat ∧ c.toNat ≤ 90 then Char.ofNat (c.toNat + 32)
  else if 1040 ≤ c.toNat ∧ c.toNat ≤ 1071 then Char.ofNat (c.toNat + 32)
  else if c.toNat = 1025 then Char.ofNat 1105
  else c

/-- Python `str.lower()` on a whole string. -/
def pyLowerS (s : String) : String := String.mk (s.data.map pyLower)

/-- Does `n` occur as a leading block of `l`? -/
def leadMatch : List Char → List Char → Bool
  | [], _ => true
  | _ :: _, [] => false
  | a :: as, b :: bs => decide (a = b) && leadMatch as bs

/-- Python `n in h` for strings: does `n` occur as a contiguous block
of `h`? -/
def occursInL : List Char → List Char → Bool
  | n, [] => n.isEmpty
  | n, c :: t => leadMatch n (c :: t) || occursInL n t

/-- String-level wrapper for `occursInL`. -/
def occursIn (needle hay : String) : Bool := occursInL needle.data hay.data

/-- Membership of a string in a list of strings (Python `x in list`). -/
def strMem (c : String) : List String → Bool
  | [] => false
  | a :: t => decide (a = c) || strMem c t

/-! ## validate_post_data (simple_main.py lines 374-451) -/

/-- Required-field test: `not fixed.get(field) or not
str(fixed[field]).strip()`. -/
def requiredMissing (v : Option PyVal) : Bool :=
  match v with
  | Option.none => true
  | some w => !truthy w || (pyStrip (pyStr w).data).isEmpty

/-- Error messages collected for the fields `title`, `content`,
`excerpt` (in the source's order). -/
def requiredErrors (pd : PostData) : List String :=
  (if requiredMissing pd.title then ["Отсутствует обязательное поле: title"] else []) ++
  (if requiredMissing pd.content then ["Отсутствует обязательное поле: content"] else []) ++
  (if requiredMissing pd.excerpt then ["Отсутствует обязательное поле: excerpt"] else [])

/-- Python `v[:k] + '...'`: defined for strings; for any other value on
which the source reaches this expression (a list) it raises
`TypeError`. -/
def sliceConcat (v : PyVal) (k : Nat) : Except String PyVal :=
  match v with
  | .str s => .ok (.str (String.mk (s.data.take k) ++ "..."))
  | _ => .error "TypeError"

/-- One truncation block of the validator:
`if len(fixed.get(f,'')) > limit: fixed[f] = fixed[f][:cut] + '...'`. -/
def truncField (v : Option PyVal) (limit cut : Nat) : Except String (Option PyVal) :=
  match pyLen (getOrEmptyStr v) with
  | .error e => .error e
  | .ok n =>
    if n > limit then
      match sliceConcat (getOrEmptyStr v) cut with
      | .error e => .error e
      | .ok w => .ok (some w)
    else .ok v

/-- The loop condition `a.lower() in category.lower() or
category.lower() in a.lower()` with `cl = category.lower()`. -/
def catMatchPred (cl : String) (a : String) : Bool :=
  occursIn (pyLowerS a) cl || occursIn cl (pyLowerS a)

/-- The category block of the validator (simple_main.py lines 408-422):
exact membership test, then a case-insensitive two-way containment scan
over the allowed list, then the default category.  `category.lower()`
raises `AttributeError` on a non-string value. -/
def categoryStep (v : Option PyVal) (cfg : SiteConfig) : Except String (Option PyVal) :=
  let cat := getOrEmptyStr v
  let isIn : Bool :=
    match cat with
    | .str c => strMem c cfg.allowed_categories
    | _ => false
  if isIn then .ok v
  else
    match cat with
    | .str c =>
      match cfg.allowed_categories.find? (catMatchPred (pyLowerS c)) with
      | some a => .ok (some (.str a))
      | Option.none => .ok (some (.str cfg.default_category))
    | _ => .error "AttributeError"

/-- Python `s.split(',')` on a character list. -/
def splitAtCommas : List Char → List (List Char)
  | [] => [[]]
  | c :: cs =>
    let r := splitAtCommas cs
    if c = ',' then [] :: r
    else
      match r with
      | [] => [[c]]
      | g :: gs => (c :: g) :: gs

/-- `[t.strip() for t in s.split(',') if t.strip()]`. -/
def splitCommaTrim (s : String) : List String :=
  (((splitAtCommas s.data).map pyStrip).filter (fun l => !l.isEmpty)).map String.mk

/-- The tags / seo_keywords block: a string is split on commas and
trimmed, a list is kept, anything else becomes the empty list; an
absent key stays absent because the Python default `[]` is a list. -/
def tagsStep (v : Option PyVal) : Option PyVal :=
  match v.getD (.list []) with
  | .str s => some (.list ((splitCommaTrim s).map PyVal.str))
  | .list _ => v
  | _ => some (.list [])

/-- Python `int(s)` on a string: optional sign and decimal digits after
stripping whitespace (underscore separators and non-ASCII digits are
not modelled). -/
def parseIntPy (s : String) : Option Int :=
  let digitsVal : List Char → Option Int := fun l =>
    if l.isEmpty then Option.none
    else if l.all Char.isDigit then
      some (Int.ofNat (l.foldl (fun a c => a * 10 + (c.toNat - 48)) 0))
    else Option.none
  match pyStrip s.data with
  | '+' :: ds => digitsVal ds
  | '-' :: ds => (digitsVal ds).map (fun n => -n)
  | ds => digitsVal ds

/-- The read_time block: numbers (and booleans, which Python counts as
`int`) are kept, strings are parsed with `int(...)`, and any failure
or other type falls back to `5`; the `try/except` catches every
raise, so this step is total. -/
def readTimeStep (v : Option PyVal) : Option PyVal :=
  match v.getD (.num 5) with
  | .num _ => v
  | .bool _ => v
  | .str s =>
    some (match parseIntPy s with
          | some n => .num n
          | Option.none => .num 5)
  | _ => some (.num 5)

/-- The final word-count check calls `.split()` on
`fixed.get('content','')`, which raises `AttributeError` on a
non-string content; the emitted warning changes no data. -/
def contentCheck (v : Option PyVal) : Except String Unit :=
  match getOrEmptyStr v with
  | .str _ => .ok ()
  | _ => .error "AttributeError"

/-- `validate_post_data(post_data, site_config)`
(simple_main.py lines 374-451).  Returns `(is_valid, errors,
fixed_data)`; a Python exception raised inside the function is
`Except.error` with the exception class name. -/
def validate_post_data (pd : PostData) (cfg : SiteConfig) :
    Except String (Bool × List String × PostData) :=
  let errs := requiredErrors pd
  if !errs.isEmpty then .ok (false, errs, pd)
  else
    match truncField pd.title 70 67 with
    | .error e => .error e
    | .ok t =>
      match truncField pd.excerpt 200 197 with
      | .error e => .error e
      | .ok ex =>
        match truncField pd.meta_title 70 67 with
        | .error e => .error e
        | .ok mt =>
          match truncField pd.meta_description 200 197 with
          | .error e => .error e
          | .ok md =>
            match categoryStep pd.category cfg with
            | .error e => .error e
            | .ok cat =>
              match contentCheck pd.content with
              | .error e => .error e
              | .ok _ =>
                .ok (true, [],
                  { pd with
                    title := t, excerpt := ex, meta_title := mt,
                    meta_description := md, category := cat,
                    tags := tagsStep pd.tags,
                    seo_keywords := tagsStep pd.seo_keywords,
                    read_time := readTimeStep pd.read_time })

/-- Formalisation of the spec's description of category normalization:
unchanged when allowed, else the first allowed category matching
case-insensitively as a substring in either direction, else the
default category. -/
def specNormCat (c : String) (cfg : SiteConfig) : String :=
  if strMem c cfg.allowed_categories then c
  else
    match cfg.allowed_categories.find? (catMatchPred (pyLowerS c)) with
    | some a => a
    | Option.none => cfg.default_category

/-- The input category seen as a string (the cases in which it is
neither absent nor a string make `validate_post_data` raise). -/
def inputCat (v : Option PyVal) : String :=
  match v with
  | some (.str c) => c
  | _ => ""

/-! ## create_slug (simple_main.py lines 713-729) -/

/-- The character class kept by `re.sub(r'[^a-zA-Z0-9\s-]', '', ...)`. -/
def keepChar (c : Char) : Bool :=
  (97 ≤ c.toNat && c.toNat ≤ 122) || (65 ≤ c.toNat && c.toNat ≤ 90) ||
  (48 ≤ c.toNat && c.toNat ≤ 57) || pyWs c || decide (c = '-')

/-- The `translit_map` dictionary, in its insertion order. -/
def translitMap : List (Char × List Char) :=
  [('а', "a".data), ('б', "b".data), ('в', "v".data), ('г', "g".data),
   ('д', "d".data), ('е', "e".data), ('ё', "yo".data), ('ж', "zh".data),
   ('з', "z".data), ('и', "i".data), ('й', "y".data), ('к', "k".data),
   ('л', "l".data), ('м', "m".data), ('н', "n".data), ('о', "o".data),
   ('п', "p".data), ('р', "r".data), ('с', "s".data), ('т', "t".data),
   ('у', "u".data), ('ф', "f".data), ('х', "h".data), ('ц', "ts".data),
   ('ч', "ch".data), ('ш', "sh".data), ('щ', "sch".data), ('ъ', "".data),
   ('ы', "y".data), ('ь', "".data), ('э', "e".data), ('ю', "yu".data),
   ('я', "ya".data)]

/-- Python `s.replace(key, val)` for a one-character `key`. -/
def replaceChar (key : Char) (val : List Char) : List Char → List Char
  | [] => []
  | c :: cs => (if c = key then val else [c]) ++ replaceChar key val cs

/-- The transliteration loop `for cyrillic, latin in translit_map.items():
slug = slug.replace(cyrillic, latin)`. -/
def translit (l : List Char) : List Char :=
  translitMap.foldl (fun acc kv => replaceChar kv.1 kv.2 acc) l

/-- Replaces each maximal run of characters satisfying `p` by a single
hyphen (`re.sub(r'\s+', '-', ...)` and `re.sub(r'-+', '-', ...)`);
`inRun` records whether the previous character was part of a run. -/
def collapseGo (p : Char → Bool) (inRun : Bool) : List Char → List Char
  | [] => []
  | c :: cs =>
    if p c then
      if inRun then collapseGo p true cs
      else '-' :: collapseGo p true cs
    else c :: collapseGo p false cs

/-- Is the character a hyphen? -/
def isHyp (c : Char) : Bool := decide (c = '-')

/-- Drops trailing hyphens (the right half of Python `strip('-')`). -/
def dropTrail : List Char → List Char
  | [] => []
  | c :: cs =>
    match dropTrail cs with
    | [] => if c = '-' then [] else [c]
    | r => c :: r

/-- Python `strip('-')`: removes leading and trailing hyphens. -/
def stripHyphens (l : List Char) : List Char :=
  dropTrail (l.dropWhile isHyp)

/-- `create_slug(title)` on the character list: lowercase,
transliterate, drop the characters outside `[a-zA-Z0-9\s-]`, collapse
whitespace runs and hyphen runs to single hyphens, strip outer
hyphens. -/
def create_slug_chars (l : List Char) : List Char :=
  stripHyphens
    (collapseGo isHyp false
      (collapseGo pyWs false
        (List.filter keepChar (translit (l.map pyLower)))))

/-- `create_slug(title)` (simple_main.py lines 713-729). -/
def create_slug (s : String) : String := String.mk (create_slug_chars s.data)

/-- A slug-alphabet character: lowercase ASCII letter, ASCII digit, or
hyphen. -/
def slugChar (c : Char) : Bool :=
  (97 ≤ c.toNat && c.toNat ≤ 122) || (48 ≤ c.toNat && c.toNat ≤ 57) ||
  decide (c = '-')

/-- No two adjacent hyphens. -/
def noDub : List Char → Bool
  | c :: d :: t => !(decide (c = '-') && decide (d = '-')) && noDub (d :: t)
  | _ => true

/-- Slug form as the claim states it: only lowercase latin letters,
digits, and single interior hyphens. -/
def slugForm (l : List Char) : Bool :=
  l.all slugChar && noDub l &&
  !(decide (l.head? = some '-')) && !(decide (l.getLast? = some '-'))

/-! ## check_slug_exists and make_unique_slug
(simple_main.py lines 171-202) -/

/-- The outcome of one `requests.get` existence probe: an HTTP response
with a status code and the number of returned rows, or a raised
exception. -/
inductive HttpResp where
  | ok (status : Nat) (rows : Nat)
  | exc (msg : String)

/-- `check_slug_exists(env_vars, slug, site_config)` given the outcome
of the HTTP request for that slug: `len(data) > 0` on a 200 response,
`False` on any other status and on any exception. -/
def check_slug_exists (r : HttpResp) : Bool :=
  match r with
  | .ok status rows => if status = 200 then decide (rows > 0) else false
  | .exc _ => false

/-- The probing loop of `make_unique_slug`: tries `slug-counter`,
increments, and after the counter passes 100 returns `slug` plus a
random hex suffix (`uuid.uuid4().hex[:6]`, here the parameter `hex`).
`ex` is the oracle `s ↦ check_slug_exists(..., s, ...)`. -/
def slugProbe (ex : String → Bool) (slug hex : String) (counter : Nat) : String :=
  let new_slug := slug ++ "-" ++ toString counter
  if ex new_slug = false then new_slug
  else if h : counter + 1 > 100 then slug ++ "-" ++ hex
  else slugProbe ex slug hex (counter + 1)
termination_by 101 - counter
decreasing_by simp_wf; omega

/-- `make_unique_slug(env_vars, slug, site_config)`
(simple_main.py lines 189-202). -/
def make_unique_slug (ex : String → Bool) (slug hex : String) : String :=
  if ex slug = false then slug else slugProbe ex slug hex 2

/-! ## The JSON repair step of generate_blog_post
(simple_main.py lines 664-669) -/

/-- The character with code point 123. -/
def lbrace : Char := Char.ofNat 123

/-- The character with code point 125. -/
def rbrace : Char := Char.ofNat 125

/-- The leading fence marker stripped by the first repair regex. -/
def jsonFence : List Char := "```json".data

/-- Three backticks: the trailing fence marker. -/
def tickFence : List Char := "```".data

/-- Does `n` occur as a trailing block of `l`? -/
def tailMatch (n l : List Char) : Bool := leadMatch n.reverse l.reverse

/-- Removes trailing `\s` characters. -/
def trimTrailWs (l : List Char) : List Char :=
  (l.reverse.dropWhile pyWs).reverse

/-- `re.sub(r'^```json\s*', '', content)`: the anchored pattern strips
one leading fence marker and the following whitespace run. -/
def stripJsonFence (l : List Char) : List Char :=
  if leadMatch jsonFence l then (l.drop jsonFence.length).dropWhile pyWs else l

/-- `re.sub(r'\s*```$', '', content)`: removes a trailing fence and the
whitespace before it; `$` also matches just before a final newline, in
which case that newline survives. -/
def stripTailFence (l : List Char) : List Char :=
  if tailMatch tickFence l then trimTrailWs (l.take (l.length - 3))
  else if tailMatch (tickFence ++ ['\n']) l then
    trimTrailWs (l.take (l.length - 4)) ++ ['\n']
  else l

/-- `re.sub(r'^.*?(\{.*\}).*?$', r'\1', content, flags=re.DOTALL)`:
keeps the block from the first opening brace to the last closing brace
when such a pair exists (a final newline, which `$` can skip, is kept);
otherwise the text is unchanged. -/
def extractBraces (l : List Char) : List Char :=
  let core := if l.getLast? = some '\n' then l.take (l.length - 1) else l
  let tl : List Char := if l.getLast? = some '\n' then ['\n'] else []
  match core.findIdx? (fun c => decide (c = lbrace)) with
  | Option.none => l
  | some i =>
    match core.reverse.findIdx? (fun c => decide (c = rbrace)) with
    | Option.none => l
    | some jr =>
      let j := core.length - 1 - jr
      if i < j then (core.drop i).take (j - i + 1) ++ tl else l

/-- The three-stage repair applied to unparsable model output. -/
def repairChars (l : List Char) : List Char :=
  extractBraces (stripTailFence (stripJsonFence l))

/-- String-level wrapper of the repair step. -/
def repairContent (s : String) : String := String.mk (repairChars s.data)

/-! ## Orchestration: one generation attempt and the batch loop
(batch_generate.py lines 58-134, telegram_bot.py lines 232-294,
simple_main.py lines 824-885) -/

/-- The outcome of the fallible sub-calls of one generation attempt:
whether `generate_blog_post` returned data, whether
`validate_post_data` returned `is_valid=True`, whether `save_to_file`
succeeded, whether the store was reachable at batch start, and whether
`save_post_to_database` succeeded. -/
structure AttemptEnv where
  gen_ok : Bool
  valid : Bool
  file_saved : Bool
  db_available : Bool
  db_save_ok : Bool

/-- The value of the `db_saved` variable after
`db_saved = False; if db_available: db_saved = save_post_to_database(...)`. -/
def dbSaved (e : AttemptEnv) : Bool :=
  if e.db_available then e.db_save_ok else false

/-- `remove_title_from_list(titles, title)` (simple_main.py lines
364-371): Python `list.remove` deletes the first exact match and the
caught `ValueError` leaves the list unchanged when there is none. -/
def remove_title_from_list (titles : List String) (t : String) : List String :=
  titles.erase t

/-- The topic-list effect of one attempt of the batch loop
(batch_generate.py lines 75-120; telegram_bot.py has the same
structure): the topic is removed when generation produced data, the
validator accepted it, and `file_saved or db_saved`. -/
def batchAttemptStep (titles : List String) (t : String) (e : AttemptEnv) :
    List String :=
  if e.gen_ok then
    if e.valid then
      if e.file_saved || dbSaved e then remove_title_from_list titles t
      else titles
    else titles
  else titles

/-- The topic-list effect of one run of `main` in simple_main.py
(lines 827-885): the removal there is guarded by `if file_saved:`
alone (line 871). -/
def mainAttemptStep (titles : List String) (t : String) (e : AttemptEnv) :
    List String :=
  if e.gen_ok then
    if e.valid then
      if e.file_saved then remove_title_from_list titles t
      else titles
    else titles
  else titles

/-- The spec's success notion for one attempt: the attempt completed
and `file_saved OR store_saved`. -/
def claimSuccess (e : AttemptEnv) : Bool :=
  e.gen_ok && e.valid && (e.file_saved || dbSaved e)

/-- The batch loop `for i in range(actual_count)` of
`batch_generate_posts`: attempt `i` picks the topic at index
`picks i % len(titles)` (modelling `select_random_title`), runs one
attempt with outcome `oracle i`, and the loop breaks early when the
topic list is exhausted.  Returns the number of generation attempts
performed and the final in-memory topic list. -/
def batchGo (oracle : Nat → AttemptEnv) (picks : Nat → Nat) :
    Nat → Nat → List String → Nat × List String
  | _, 0, titles => (0, titles)
  | i, n + 1, titles =>
    if titles.isEmpty then (0, titles)
    else
      let t := titles.getD (picks i % titles.length) ""
      let titles' := batchAttemptStep titles t (oracle i)
      let r := batchGo oracle picks (i + 1) n titles'
      (r.1 + 1, r.2)

/-- `batch_generate_posts` for one site (batch_generate.py lines
43-61): empty topic list short-circuits, otherwise
`actual_count = min(count, len(titles))` bounds the loop and the
reduction is reported when `actual_count < count`.  Returns (number of
attempts, whether the reduction was reported, final topic list). -/
def batch_generate_posts_model (oracle : Nat → AttemptEnv) (picks : Nat → Nat)
    (count : Nat) (titles : List String) : Nat × Bool × List String :=
  if titles.isEmpty then (0, false, titles)
  else
    let actual_count := min count titles.length
    let reported := decide (actual_count < count)
    let r := batchGo oracle picks 0 actual_count titles
    (r.1, reported, r.2)

/-! ## Predicates and concrete inputs used in the claim statements -/

/-- The claim's "missing or blank": the key is absent, or the value is
a string that strips to nothing. -/
def missingOrBlankP (v : Option PyVal) : Prop :=
  v = Option.none ∨ ∃ s, v = some (.str s) ∧ pyStrip s.data = []

/-- Existence oracle for a store that contains `post` and `post-2`. -/
def exW : String → Bool := fun s => decide (s = "post" ∨ s = "post-2")

/-- Response function of an unreachable store: every request raises. -/
def respW : String → HttpResp := fun _ => .exc "ConnectionError"

/-- Attempt outcome with a failed file write but a successful store
write. -/
def envX : AttemptEnv :=
  { gen_ok := true, valid := true, file_saved := false,
    db_available := true, db_save_ok := true }

/-- Attempt outcome with a validation failure. -/
def envW : AttemptEnv :=
  { gen_ok := true, valid := false, file_saved := true,
    db_available := true, db_save_ok := true }

/-- Fully successful attempt outcomes for the batch-loop witness. -/
def oracleW : Nat → AttemptEnv :=
  fun _ => { gen_ok := true, valid := true, file_saved := true,
             db_available := true, db_save_ok := true }

/-- Constant pick sequence. -/
def picksW : Nat → Nat := fun _ => 0

/-- A record whose required fields are fine but whose `meta_title` is a
number. -/
def pdC2 : PostData :=
  { title := some (.str "Заголовок"), content := some (.str "Текст"),
    excerpt := some (.str "Анонс"), meta_title := some (.num 5) }

/-- A record with proper required strings and arbitrarily-typed
`tags`, `seo_keywords` and `read_time`. -/
def pdC2w : PostData :=
  { title := some (.str "Т"), content := some (.str "Текст"),
    excerpt := some (.str "А"), tags := some (.num 7),
    seo_keywords := some (.bool true), read_time := some .null }

/-- A record with a missing `content` and a blank `excerpt`. -/
def pdC3w : PostData :=
  { title := some (.str "Т"), excerpt := some (.str " ") }

/-- A record with an unknown category that matches nothing. -/
def pdC4w : PostData :=
  { title := some (.str "Т"), content := some (.str "Текст"),
    excerpt := some (.str "А"), category := some (.str "новости рынка") }

/-- A record with an over-long title. -/
def pdC7w : PostData :=
  { title := some (.str (String.mk (List.replicate 80 'x'))),
    content := some (.str "Текст"), excerpt := some (.str "А") }

/-- A JSON object text. -/
def jW : String := "\x7b\"t\":1\x7d"

/-! ## General helper lemmas -/

theorem charToNat_ofNat (n : Nat) (h : n < 55296) : (Char.ofNat n).toNat = n := by
  have hv : n.isValidChar := Or.inl h
  rw [Char.ofNat, dif_pos hv]
  simp [Char.ofNatAux, Char.toNat, UInt32.toNat, BitVec.toNat_ofNatLt]

theorem charEq_of_toNat {c d : Char} (h : c.toNat = d.toNat) : c = d := by
  apply Char.ext
  exact UInt32.toNat.inj h

theorem strExt {a b : String} (h : a.data = b.data) : a = b := by
  cases a; cases b; exact congrArg String.mk h

theorem strAppendCancelLeft {a b c : String} (h : a ++ b = a ++ c) : b = c := by
  have hd := congrArg String.data h
  simp only [String.data_append] at hd
  exact strExt (List.append_cancel_left hd)

/-! ## Claim C10: check_slug_exists error behaviour -/

/-- C10.  `check_slug_exists` returns `False` whenever the existence
request raises or returns a non-200 status; consequently with an
unreachable store (every request raises) `make_unique_slug` returns
the input slug unchanged and, being total, signals no error. -/
theorem claim_C10 :
    (∀ s n, s ≠ 200 → check_slug_exists (.ok s n) = false) ∧
    (∀ m, check_slug_exists (.exc m) = false) ∧
    (∀ resp : String → HttpResp, (∀ s, ∃ m, resp s = .exc m) →
      ∀ slug hex, make_unique_slug (fun s => check_slug_exists (resp s)) slug hex = slug) := by
  refine ⟨?_, fun _ => rfl, ?_⟩
  · intro s n h
    simp [check_slug_exists, h]
  · intro resp h slug hex
    obtain ⟨m, hm⟩ := h slug
    have hc : check_slug_exists (resp slug) = false := by rw [hm]; rfl
    simp [make_unique_slug, hc]

/-- Witness for C10 at a concrete unreachable store. -/
theorem claim_C10_witness :
    make_unique_slug (fun s => check_slug_exists (respW s)) "post" "aaaaaa" = "post" :=
  claim_C10.2.2 respW (fun _ => ⟨"ConnectionError", rfl⟩) "post" "aaaaaa"

/-! ## Claim C9: batch size reduction -/

theorem eraseLenGe (l : List String) (a : String) : l.length - 1 ≤ (l.erase a).length := by
  by_cases h : a ∈ l
  · have := List.length_erase_add_one h; omega
  · rw [List.erase_of_not_mem h]
    exact Nat.sub_le _ _

theorem batchStep_len_ge (titles : List String) (t : String) (e : AttemptEnv) :
    titles.length - 1 ≤ (batchAttemptStep titles t e).length := by
  unfold batchAttemptStep remove_title_from_list
  split_ifs <;> first | exact eraseLenGe _ _ | exact Nat.sub_le _ _

theorem batchGo_attempts (oracle : Nat → AttemptEnv) (picks : Nat → Nat) :
    ∀ (n i : Nat) (titles : List String), n ≤ titles.length →
      (batchGo oracle picks i n titles).1 = n := by
  intro n
  induction n with
  | zero => intro i titles _; rfl
  | succ n ih =>
    intro i titles h
    have hne : titles.isEmpty = false := by
      cases titles
      · simp at h
      · rfl
    have hlen : n ≤ (batchAttemptStep titles
        (titles.getD (picks i % titles.length) "") (oracle i)).length := by
      have := batchStep_len_ge titles (titles.getD (picks i % titles.length) "") (oracle i)
      omega
    rw [batchGo, if_neg (by simp [hne])]
    dsimp only
    rw [ih (i + 1) _ hlen]

/-- C9.  When the requested batch size exceeds the number of available
topics, the batch performs exactly `len(topics)` generation attempts,
and the reduction is reported. -/
theorem claim_C9 (oracle : Nat → AttemptEnv) (picks : Nat → Nat) (count : Nat)
    (titles : List String) (h1 : titles ≠ []) (h2 : titles.length < count) :
    (batch_generate_posts_model oracle picks count titles).1 = titles.length ∧
    (batch_generate_posts_model oracle picks count titles).2.1 = true := by
  have hne : titles.isEmpty = false := by
    cases titles
    · exact absurd rfl h1
    · rfl
  have hmin : min count titles.length = titles.length := Nat.min_eq_right (Nat.le_of_lt h2)
  unfold batch_generate_posts_model
  rw [if_neg (by simp [hne])]
  dsimp only
  rw [hmin]
  exact ⟨batchGo_attempts oracle picks titles.length 0 titles (Nat.le_refl _),
         decide_eq_true h2⟩

/-- Witness for C9: two topics, five requested. -/
theorem claim_C9_witness :
    (batch_generate_posts_model oracleW picksW 5 ["a", "b"]).1 = 2 ∧
    (batch_generate_posts_model oracleW picksW 5 ["a", "b"]).2.1 = true :=
  claim_C9 oracleW picksW 5 ["a", "b"] (by decide) (by decide)

/-! ## Claim C1: topic removal vs success -/

/-- Counterexample to C1 as stated: with a failed file write and a
successful store write the attempt is a success in the spec's sense
(`file_saved OR store_saved`), yet the single-generation run of
`simple_main.main` does not remove the topic (removal there would have
produced the empty list). -/
theorem claim_C1_counterexample :
    claimSuccess envX = true ∧ mainAttemptStep ["A"] "A" envX = ["A"] ∧
    remove_title_from_list ["A"] "A" = [] := by
  refine ⟨rfl, rfl, rfl⟩

/-- C1 (amended).  For every picked topic present in the list: in the
batch flows (batch_generate.py and telegram_bot.py) the topic is
removed iff the attempt completed with `file_saved OR store_saved`; in
the single-generation flow (`simple_main.main`) it is removed iff
`file_saved` alone; on a generation failure, a validation failure, or
failure of the relevant persistence condition the list is unchanged. -/
theorem claim_C1 (titles : List String) (t : String) (e : AttemptEnv) (ht : t ∈ titles) :
    ((batchAttemptStep titles t e).length < titles.length ↔ claimSuccess e = true) ∧
    ((mainAttemptStep titles t e).length < titles.length ↔
      (e.gen_ok && e.valid && e.file_saved) = true) ∧
    (claimSuccess e = false → batchAttemptStep titles t e = titles) ∧
    ((e.gen_ok && e.valid && e.file_saved) = false → mainAttemptStep titles t e = titles) := by
  have herase : (titles.erase t).length < titles.length := by
    have := List.length_erase_add_one ht; omega
  obtain ⟨g, v, f, da, ds⟩ := e
  cases g <;> cases v <;> cases f <;> cases da <;> cases ds <;>
    simp_all [batchAttemptStep, mainAttemptStep, claimSuccess, dbSaved,
      remove_title_from_list]

/-- Witness for C1 at a concrete validation-failure outcome. -/
theorem claim_C1_witness :
    (batchAttemptStep ["A", "B"] "A" envW).length < (["A", "B"] : List String).length ↔
      claimSuccess envW = true :=
  (claim_C1 ["A", "B"] "A" envW (by decide)).1

/-! ## Claim C3: required-field failure short-circuits -/

theorem requiredMissing_of_mob {v : Option PyVal} (h : missingOrBlankP v) :
    requiredMissing v = true := by
  rcases h with rfl | ⟨s, rfl, hs⟩
  · rfl
  · simp [requiredMissing, pyStr, hs]

theorem mem_req_title {pd : PostData} (h : requiredMissing pd.title = true) :
    "Отсутствует обязательное поле: title" ∈ requiredErrors pd := by
  unfold requiredErrors
  rw [h]
  simp

theorem mem_req_content {pd : PostData} (h : requiredMissing pd.content = true) :
    "Отсутствует обязательное поле: content" ∈ requiredErrors pd := by
  unfold requiredErrors
  rw [h]
  simp

theorem mem_req_excerpt {pd : PostData} (h : requiredMissing pd.excerpt = true) :
    "Отсутствует обязательное поле: excerpt" ∈ requiredErrors pd := by
  unfold requiredErrors
  rw [h]
  simp

/-- C3.  When any of title, content, excerpt is missing or blank,
`validate_post_data` returns `is_valid=False` with an error naming each
missing field, and the returned record is the (unchanged) input
record. -/
theorem claim_C3 (pd : PostData) (cfg : SiteConfig)
    (h : missingOrBlankP pd.title ∨ missingOrBlankP pd.content ∨ missingOrBlankP pd.excerpt) :
    validate_post_data pd cfg = .ok (false, requiredErrors pd, pd) ∧
    (missingOrBlankP pd.title →
      "Отсутствует обязательное поле: title" ∈ requiredErrors pd) ∧
    (missingOrBlankP pd.content →
      "Отсутствует обязательное поле: content" ∈ requiredErrors pd) ∧
    (missingOrBlankP pd.excerpt →
      "Отсутствует обязательное поле: excerpt" ∈ requiredErrors pd) := by
  have h1 : requiredErrors pd ≠ [] := by
    rcases h with hm | hm | hm
    · exact List.ne_nil_of_mem (mem_req_title (requiredMissing_of_mob hm))
    · exact List.ne_nil_of_mem (mem_req_content (requiredMissing_of_mob hm))
    · exact List.ne_nil_of_mem (mem_req_excerpt (requiredMissing_of_mob hm))
  have hb : (requiredErrors pd).isEmpty = false := by
    rcases hE : (requiredErrors pd).isEmpty
    · rfl
    · exact absurd (List.isEmpty_iff.mp hE) h1
  refine ⟨by simp [validate_post_data, hb], ?_, ?_, ?_⟩ <;>
    intro hm
  · exact mem_req_title (requiredMissing_of_mob hm)
  · exact mem_req_content (requiredMissing_of_mob hm)
  · exact mem_req_excerpt (requiredMissing_of_mob hm)

/-- Witness for C3: a record with an absent content field. -/
theorem claim_C3_witness :
    validate_post_data pdC3w mfoConfig = .ok (false, requiredErrors pdC3w, pdC3w) ∧
    "Отсутствует обязательное поле: content" ∈ requiredErrors pdC3w :=
  ⟨(claim_C3 pdC3w mfoConfig (Or.inr (Or.inl (Or.inl rfl)))).1,
   (claim_C3 pdC3w mfoConfig (Or.inr (Or.inl (Or.inl rfl)))).2.2.1 (Or.inl rfl)⟩

/-! ## Claim C5: make_unique_slug probing protocol -/

theorem slugProbe_spec (ex : String → Bool) (slug hex : String) :
    ∀ (n counter : Nat), counter + n = 101 → 1 ≤ n →
      slugProbe ex slug hex counter =
        (match (List.range' counter n).find?
            (fun k => !(ex (slug ++ "-" ++ toString k))) with
         | some k => slug ++ "-" ++ toString k
         | Option.none => slug ++ "-" ++ hex) := by
  intro n
  induction n with
  | zero => intro counter _ h1; omega
  | succ n ih =>
    intro counter hsum _
    rw [slugProbe]
    rcases hx : ex (slug ++ "-" ++ toString counter) with _ | _
    · rw [if_pos rfl, List.range'_succ,
        List.find?_cons_of_pos _ (by simp [hx])]
    · rw [if_neg (by simp)]
      by_cases hc : counter + 1 > 100
      · have hn : n = 0 := by omega
        subst hn
        rw [dif_pos hc]
        have hr : List.range' counter 1 = [counter] := by simp [List.range']
        rw [hr, List.find?_cons_of_neg _ (by simp [hx]), List.find?_nil]
      · rw [dif_neg hc, ih (counter + 1) (by omega) (by omega),
          List.range'_succ, List.find?_cons_of_neg _ (by simp [hx])]

/-- C5.  `make_unique_slug` returns the input slug when the store
reports it absent; when present it probes `slug-2`, `slug-3`, …
sequentially through `slug-100` and returns the first probe reported
absent, and past that bound returns `slug` with the random hex suffix
immediately; moreover the returned slug is never one the store
reported as existing at call time (`slug` itself or any probed
`slug-k`). -/
theorem claim_C5 (ex : String → Bool) (slug hex : String)
    (hhex : ∀ k, k < 101 → 2 ≤ k → hex ≠ toString k) :
    (ex slug = false → make_unique_slug ex slug hex = slug) ∧
    (ex slug = true → make_unique_slug ex slug hex =
      (match (List.range' 2 99).find?
          (fun k => !(ex (slug ++ "-" ++ toString k))) with
       | some k => slug ++ "-" ++ toString k
       | Option.none => slug ++ "-" ++ hex)) ∧
    (∀ k, 2 ≤ k → k ≤ 100 → ex (slug ++ "-" ++ toString k) = true →
      make_unique_slug ex slug hex ≠ slug ++ "-" ++ toString k) ∧
    (ex slug = true → make_unique_slug ex slug hex ≠ slug) := by
  have hmain : ex slug = true → make_unique_slug ex slug hex =
      (match (List.range' 2 99).find?
          (fun k => !(ex (slug ++ "-" ++ toString k))) with
       | some k => slug ++ "-" ++ toString k
       | Option.none => slug ++ "-" ++ hex) := by
    intro hx
    unfold make_unique_slug
    rw [if_neg (by simp [hx]), slugProbe_spec ex slug hex 99 2 rfl (by omega)]
  refine ⟨?_, hmain, ?_, ?_⟩
  · intro hx
    unfold make_unique_slug
    rw [if_pos hx]
  · intro k hk2 hk100 hxk
    rcases hx : ex slug with _ | _
    · have hres : make_unique_slug ex slug hex = slug := by
        unfold make_unique_slug; rw [if_pos hx]
      rw [hres]
      intro heq
      have hlen := congrArg String.length heq
      rw [String.length_append, String.length_append] at hlen
      have hone : ("-" : String).length = 1 := rfl
      omega
    · rcases hf : (List.range' 2 99).find? (fun j => !(ex (slug ++ "-" ++ toString j))) with _ | k'
      · rw [hmain hx, hf]
        show slug ++ "-" ++ hex ≠ slug ++ "-" ++ toString k
        intro heq
        have := strAppendCancelLeft heq
        exact hhex k (by omega) hk2 this
      · rw [hmain hx, hf]
        show slug ++ "-" ++ toString k' ≠ slug ++ "-" ++ toString k
        have hpk : ex (slug ++ "-" ++ toString k') = false := by
          have := List.find?_some hf
          simpa using this
        intro heq
        rw [heq] at hpk
        simp [hxk] at hpk
  · intro hx
    rcases hf : (List.range' 2 99).find? (fun j => !(ex (slug ++ "-" ++ toString j))) with _ | k'
    · rw [hmain hx, hf]
      show slug ++ "-" ++ hex ≠ slug
      intro heq
      have hlen := congrArg String.length heq
      rw [String.length_append, String.length_append] at hlen
      have hone : ("-" : String).length = 1 := rfl
      omega
    · rw [hmain hx, hf]
      show slug ++ "-" ++ toString k' ≠ slug
      intro heq
      have hlen := congrArg String.length heq
      rw [String.length_append, String.length_append] at hlen
      have hone : ("-" : String).length = 1 := rfl
      omega

/-- Witness for C5: with `post` and `post-2` present the probe stops at
`post-3`, so the result is not the occupied `post-2`. -/
theorem claim_C5_witness : make_unique_slug exW "post" "abcdef" ≠ "post-2" := by
  have h := (claim_C5 exW "post" "abcdef" (by decide)).2.2.1 2 (by decide) (by decide) (by decide)
  simpa using h

/-! ## Claim C6: repair of code-fenced JSON -/

theorem leadMatch_self_append (p l : List Char) : leadMatch p (p ++ l) = true := by
  induction p with
  | nil => rfl
  | cons a as ih => simp [leadMatch, ih]

theorem rev_cons_of_getLast {s : List Char} {c : Char} (h : s.getLast? = some c) :
    ∃ rest, s.reverse = c :: rest := by
  cases hrv : s.reverse with
  | nil =>
    rw [List.reverse_eq_nil_iff] at hrv
    subst hrv
    simp at h
  | cons a r =>
    have ha : some c = some a := by
      rw [← h, ← List.head?_reverse, hrv]
      rfl
    obtain rfl : c = a := by injection ha
    exact ⟨r, rfl⟩

theorem headIsLb {s : List Char} (h1 : s.head? = some lbrace) :
    ∃ t, s = lbrace :: t := by
  cases s with
  | nil => simp at h1
  | cons a t =>
    simp only [List.head?_cons, Option.some.injEq] at h1
    exact ⟨t, by rw [h1]⟩

theorem stripJsonFence_fenced (s : List Char) (h1 : s.head? = some lbrace) :
    stripJsonFence (jsonFence ++ ('\n' :: (s ++ ('\n' :: tickFence)))) =
      s ++ ('\n' :: tickFence) := by
  unfold stripJsonFence
  rw [if_pos (leadMatch_self_append jsonFence ('\n' :: (s ++ ('\n' :: tickFence)))),
    List.drop_left, List.dropWhile_cons, if_pos (by decide)]
  obtain ⟨t, rfl⟩ := headIsLb h1
  rw [List.cons_append, List.dropWhile_cons, if_neg (by decide)]

theorem stripTailFence_fenced (s : List Char) (h2 : s.getLast? = some rbrace) :
    stripTailFence (s ++ ('\n' :: tickFence)) = s := by
  obtain ⟨rest, hrev⟩ := rev_cons_of_getLast h2
  have hgrp : s ++ ('\n' :: tickFence) = (s ++ ['\n']) ++ tickFence := by simp
  have hlen : (s ++ ('\n' :: tickFence)).length - 3 = (s ++ ['\n']).length := by
    simp only [List.length_append, List.length_cons, List.length_nil]
    have h3 : tickFence.length = 3 := rfl
    omega
  have hcond : tailMatch tickFence (s ++ ('\n' :: tickFence)) = true := by
    unfold tailMatch
    rw [hgrp, List.reverse_append]
    exact leadMatch_self_append _ _
  have htr : trimTrailWs (s ++ ['\n']) = s := by
    unfold trimTrailWs
    rw [List.reverse_append]
    have hone : (['\n'] : List Char).reverse = ['\n'] := rfl
    rw [hone, List.singleton_append, List.dropWhile_cons, if_pos (by decide), hrev,
      List.dropWhile_cons, if_neg (by decide), ← hrev, List.reverse_reverse]
  unfold stripTailFence
  rw [if_pos hcond, hlen, hgrp, List.take_left, htr]

theorem extractBraces_of_ends (s : List Char) (h1 : s.head? = some lbrace)
    (h2 : s.getLast? = some rbrace) : extractBraces s = s := by
  obtain ⟨s', rfl⟩ := headIsLb h1
  obtain ⟨rest, hrev⟩ := rev_cons_of_getLast h2
  have hne : s' ≠ [] := by
    intro h
    subst h
    have : lbrace = rbrace := by simpa using h2
    exact absurd this (by decide)
  have hlast : (lbrace :: s').getLast? ≠ some '\n' := by
    rw [h2]
    intro h
    have : rbrace = '\n' := by injection h
    exact absurd this (by decide)
  have hlen2 : 2 ≤ (lbrace :: s').length := by
    cases s' with
    | nil => exact absurd rfl hne
    | cons b t =>
      simp only [List.length_cons]
      omega
  have hf1 : List.findIdx? (fun c => decide (c = lbrace)) (lbrace :: s') = some 0 := by
    simp [List.findIdx?_cons]
  have hf2 : List.findIdx? (fun c => decide (c = rbrace)) ((lbrace :: s').reverse) = some 0 := by
    rw [hrev]
    simp [List.findIdx?_cons]
  have hj : 0 < (lbrace :: s').length - 1 - 0 := by
    simp only [List.length_cons] at hlen2 ⊢
    omega
  have harith : (lbrace :: s').length - 1 - 0 - 0 + 1 = (lbrace :: s').length := by
    simp only [List.length_cons]
    omega
  unfold extractBraces
  rw [if_neg hlast, if_neg hlast]
  simp only [hf1, hf2]
  rw [if_pos hj, List.drop_zero, harith, List.take_length, List.append_nil]

/-- C6.  Repair applied to the code-fenced wrapping of a JSON object
text `j` yields `j` itself (the fences are stripped and the block from
the first opening brace to the last closing brace is extracted), so it
parses to the same object as `j` parsed directly. -/
theorem claim_C6 (j : String) (h1 : j.data.head? = some lbrace)
    (h2 : j.data.getLast? = some rbrace) :
    repairContent ("```json\n" ++ j ++ "\n```") = j ∧
    ∀ (α : Type) (parse : String → Option α),
      parse (repairContent ("```json\n" ++ j ++ "\n```")) = parse j := by
  have hdata : ("```json\n" ++ j ++ "\n```").data =
      jsonFence ++ ('\n' :: (j.data ++ ('\n' :: tickFence))) := by
    have e1 : ("```json\n" : String).data = jsonFence ++ ['\n'] := rfl
    have e2 : ("\n```" : String).data = '\n' :: tickFence := rfl
    rw [String.data_append, String.data_append, e1, e2]
    simp
  have hmain : repairContent ("```json\n" ++ j ++ "\n```") = j := by
    unfold repairContent repairChars
    rw [hdata, stripJsonFence_fenced _ h1, stripTailFence_fenced _ h2,
      extractBraces_of_ends _ h1 h2]
  exact ⟨hmain, fun α parse => by rw [hmain]⟩

/-- Witness for C6 at a concrete JSON object text. -/
theorem claim_C6_witness : repairContent ("```json\n" ++ jW ++ "\n```") = jW :=
  (claim_C6 jW (by decide) (by decide)).1

/-! ## Decomposition of validate_post_data -/

/-- Decomposes a successful validator run into its step results. -/
theorem validate_ok_parts {pd : PostData} {cfg : SiteConfig} {errs : List String}
    {fx : PostData} (h : validate_post_data pd cfg = .ok (true, errs, fx)) :
    requiredErrors pd = [] ∧ errs = [] ∧
    truncField pd.title 70 67 = .ok fx.title ∧
    truncField pd.excerpt 200 197 = .ok fx.excerpt ∧
    truncField pd.meta_title 70 67 = .ok fx.meta_title ∧
    truncField pd.meta_description 200 197 = .ok fx.meta_description ∧
    categoryStep pd.category cfg = .ok fx.category ∧
    contentCheck pd.content = .ok () ∧
    fx.tags = tagsStep pd.tags ∧
    fx.seo_keywords = tagsStep pd.seo_keywords ∧
    fx.read_time = readTimeStep pd.read_time ∧
    fx.content = pd.content := by
  unfold validate_post_data at h
  rcases hE : (requiredErrors pd).isEmpty with _ | _
  case false =>
    simp only [hE, Bool.not_false, if_true] at h
    simp at h
  case true =>
    have hnil : requiredErrors pd = [] := List.isEmpty_iff.mp hE
    simp only [hE, Bool.not_true, Bool.false_eq_true, if_false] at h
    rcases h1 : truncField pd.title 70 67 with e | t <;> rw [h1] at h
    · simp at h
    rcases h2 : truncField pd.excerpt 200 197 with e | ex <;> rw [h2] at h
    · simp at h
    rcases h3 : truncField pd.meta_title 70 67 with e | mt <;> rw [h3] at h
    · simp at h
    rcases h4 : truncField pd.meta_description 200 197 with e | md <;> rw [h4] at h
    · simp at h
    rcases h5 : categoryStep pd.category cfg with e | cat <;> rw [h5] at h
    · simp at h
    rcases h6 : contentCheck pd.content with e | u <;> rw [h6] at h
    · simp at h
    obtain ⟨u⟩ : PUnit := u
    simp only [Except.ok.injEq, Prod.mk.injEq] at h
    obtain ⟨-, hErr, hFx⟩ := h
    subst hFx
    exact ⟨hnil, hErr.symm, rfl, rfl, rfl, rfl, rfl, rfl, rfl, rfl, rfl, rfl⟩

/-- Builds a successful validator run from its step results. -/
theorem validate_ok_build {pd : PostData} {cfg : SiteConfig}
    {t ex mt md cat : Option PyVal}
    (h0 : requiredErrors pd = [])
    (h1 : truncField pd.title 70 67 = .ok t)
    (h2 : truncField pd.excerpt 200 197 = .ok ex)
    (h3 : truncField pd.meta_title 70 67 = .ok mt)
    (h4 : truncField pd.meta_description 200 197 = .ok md)
    (h5 : categoryStep pd.category cfg = .ok cat)
    (h6 : contentCheck pd.content = .ok ()) :
    validate_post_data pd cfg = .ok (true, [],
      { pd with
        title := t,
        excerpt := ex,
        meta_title := mt,
        meta_description := md,
        category := cat,
        tags := tagsStep pd.tags,
        seo_keywords := tagsStep pd.seo_keywords,
        read_time := readTimeStep pd.read_time }) := by
  unfold validate_post_data
  rw [h0]
  simp [h1, h2, h3, h4, h5, h6]

/-! ## Step lemmas for the validator -/

theorem truncField_str (s : String) (limit cut : Nat) :
    truncField (some (.str s)) limit cut =
      .ok (if s.length > limit then
             some (.str (String.mk (s.data.take cut) ++ "..."))
           else some (.str s)) := by
  unfold truncField getOrEmptyStr
  simp only [Option.getD_some]
  by_cases h : s.length > limit
  · simp [pyLen, sliceConcat, h]
  · simp [pyLen, h]

theorem truncField_none (limit cut : Nat) :
    truncField Option.none limit cut = .ok Option.none := by
  have h0 : ("" : String).length = 0 := rfl
  unfold truncField getOrEmptyStr
  simp [pyLen, h0]

theorem truncField_ok_exists {v : Option PyVal} (limit cut : Nat)
    (h : v = Option.none ∨ ∃ s, v = some (.str s)) :
    ∃ w, truncField v limit cut = .ok w := by
  rcases h with rfl | ⟨s, rfl⟩
  · exact ⟨_, truncField_none limit cut⟩
  · rw [truncField_str]
    exact ⟨_, rfl⟩

theorem categoryStep_str (c : String) (cfg : SiteConfig) :
    categoryStep (some (.str c)) cfg = .ok (some (.str (specNormCat c cfg))) := by
  unfold categoryStep specNormCat getOrEmptyStr
  simp only [Option.getD_some]
  by_cases h : strMem c cfg.allowed_categories
  · rw [if_pos h, if_pos h]
  · rw [if_neg h, if_neg h]
    cases hf : cfg.allowed_categories.find? (catMatchPred (pyLowerS c)) <;> rfl

theorem categoryStep_none_ok (cfg : SiteConfig) :
    ∃ w, categoryStep Option.none cfg = .ok w := by
  unfold categoryStep getOrEmptyStr
  simp only [Option.getD_none]
  by_cases hm : strMem "" cfg.allowed_categories
  · rw [if_pos hm]
    exact ⟨_, rfl⟩
  · rw [if_neg hm]
    cases hf : cfg.allowed_categories.find? (catMatchPred (pyLowerS "")) with
    | none => exact ⟨_, rfl⟩
    | some a => exact ⟨_, rfl⟩

theorem strMem_iff (c : String) (l : List String) : strMem c l = true ↔ c ∈ l := by
  induction l with
  | nil => simp [strMem]
  | cons a t ih =>
    simp only [strMem, Bool.or_eq_true, decide_eq_true_eq, ih, List.mem_cons]
    constructor
    · rintro (h | h)
      · exact Or.inl h.symm
      · exact Or.inr h
    · rintro (h | h)
      · exact Or.inl h.symm
      · exact Or.inr h

theorem specNormCat_mem {c : String} {cfg : SiteConfig}
    (hdef : cfg.default_category ∈ cfg.allowed_categories) :
    specNormCat c cfg ∈ cfg.allowed_categories := by
  unfold specNormCat
  by_cases hm : strMem c cfg.allowed_categories
  · rw [if_pos hm]
    exact (strMem_iff _ _).mp hm
  · rw [if_neg hm]
    cases hf : cfg.allowed_categories.find? (catMatchPred (pyLowerS c)) with
    | none => exact hdef
    | some a => exact List.mem_of_find?_eq_some hf

theorem categoryStep_ok_spec {v : Option PyVal} {cfg : SiteConfig} {w : Option PyVal}
    (h : categoryStep v cfg = .ok w) :
    getOrEmptyStr w = .str (specNormCat (inputCat v) cfg) := by
  cases v with
  | some pv =>
    cases pv with
    | str c =>
      rw [categoryStep_str] at h
      injection h with h
      subst h
      rfl
    | num n => simp [categoryStep, getOrEmptyStr] at h
    | list l => simp [categoryStep, getOrEmptyStr] at h
    | null => simp [categoryStep, getOrEmptyStr] at h
    | bool b => simp [categoryStep, getOrEmptyStr] at h
  | none =>
    unfold categoryStep getOrEmptyStr at h
    simp only [Option.getD_none] at h
    by_cases hm : strMem "" cfg.allowed_categories
    · rw [if_pos hm] at h
      injection h with h
      subst h
      show getOrEmptyStr Option.none = _
      unfold specNormCat inputCat getOrEmptyStr
      rw [if_pos hm]
      rfl
    · rw [if_neg hm] at h
      cases hf : cfg.allowed_categories.find? (catMatchPred (pyLowerS "")) with
      | some a =>
        rw [hf] at h
        injection h with h
        subst h
        show getOrEmptyStr (some (.str a)) = _
        unfold specNormCat inputCat
        rw [if_neg hm, hf]
        rfl
      | none =>
        rw [hf] at h
        injection h with h
        subst h
        show getOrEmptyStr (some (.str cfg.default_category)) = _
        unfold specNormCat inputCat
        rw [if_neg hm, hf]
        rfl

/-! ## Claim C4: category normalization -/

/-- C4.  For every successfully validated record, the normalized
category is `specNormCat` of the input category (unchanged when
allowed, else first case-insensitive two-way substring match, else the
default category), and it lies in the allowed set whenever the site's
default category does. -/
theorem claim_C4 (pd : PostData) (cfg : SiteConfig) (fx : PostData)
    (hdef : cfg.default_category ∈ cfg.allowed_categories)
    (h : validate_post_data pd cfg = .ok (true, [], fx)) :
    getOrEmptyStr fx.category = .str (specNormCat (inputCat pd.category) cfg) ∧
    specNormCat (inputCat pd.category) cfg ∈ cfg.allowed_categories := by
  obtain ⟨-, -, -, -, -, -, hcat, -⟩ := validate_ok_parts h
  exact ⟨categoryStep_ok_spec hcat, specNormCat_mem hdef⟩

/-- Witness for C4 at a record with an unknown category: the validator
accepts it and the normalized category satisfies the claim. -/
theorem claim_C4_witness :
    ∃ fx, validate_post_data pdC4w mfoConfig = Except.ok (true, [], fx) ∧
      getOrEmptyStr fx.category = .str (specNormCat (inputCat pdC4w.category) mfoConfig) ∧
      specNormCat (inputCat pdC4w.category) mfoConfig ∈ mfoConfig.allowed_categories := by
  refine ⟨_, rfl, ?_, ?_⟩
  · exact (claim_C4 pdC4w mfoConfig _ (by decide) rfl).1
  · exact (claim_C4 pdC4w mfoConfig _ (by decide) rfl).2

/-! ## Claim C7: title truncation -/

/-- C7.  For every successfully validated record whose title is a
string longer than 70 characters, the normalized title has length at
most 70 and ends with the ellipsis marker. -/
theorem claim_C7 (pd : PostData) (cfg : SiteConfig) (fx : PostData) (t : String)
    (h : validate_post_data pd cfg = .ok (true, [], fx))
    (hti : pd.title = some (.str t)) (hlen : 70 < t.length) :
    ∃ u, fx.title = some (.str (u ++ "...")) ∧ (u ++ "...").length ≤ 70 := by
  obtain ⟨-, -, h1, -⟩ := validate_ok_parts h
  rw [hti, truncField_str, if_pos hlen] at h1
  injection h1 with h1
  refine ⟨String.mk (t.data.take 67), h1.symm, ?_⟩
  rw [String.length_append]
  have hmk : (String.mk (t.data.take 67)).length = (t.data.take 67).length := rfl
  have h3 : ("..." : String).length = 3 := rfl
  rw [hmk, List.length_take]
  omega

/-- Witness for C7 at an 80-character title. -/
theorem claim_C7_witness :
    ∃ fx, validate_post_data pdC7w mfoConfig = Except.ok (true, [], fx) ∧
      ∃ u, fx.title = some (.str (u ++ "...")) ∧ (u ++ "...").length ≤ 70 := by
  refine ⟨_, rfl, ?_⟩
  exact claim_C7 pdC7w mfoConfig _ (String.mk (List.replicate 80 'x')) rfl rfl (by decide)

/-! ## Claim C2: the validator accepts all well-formed records -/

theorem requiredMissing_str {s : String} (h : pyStrip s.data ≠ []) :
    requiredMissing (some (.str s)) = false := by
  have h1 : s.data.isEmpty = false := by
    cases hd : s.data with
    | nil =>
      rw [hd] at h
      exact absurd rfl h
    | cons a t => rfl
  have h2 : (pyStrip s.data).isEmpty = false := by
    cases hp : pyStrip s.data with
    | nil => exact absurd hp h
    | cons a t => rfl
  simp [requiredMissing, truthy, pyStr, h1, h2]

/-- Counterexample to C2 as stated: the required fields of `pdC2` are
present non-blank strings (`requiredErrors pdC2 = []`), yet
`validate_post_data` raises a `TypeError` because the optional
`meta_title` is a number (`len(5)` in Python). -/
theorem claim_C2_counterexample :
    requiredErrors pdC2 = [] ∧
    validate_post_data pdC2 mfoConfig = Except.error "TypeError" :=
  ⟨rfl, rfl⟩

/-- C2 (amended).  For every parsed record whose title, content and
excerpt are present, non-blank strings, and whose category, meta_title
and meta_description are strings or absent, `validate_post_data`
returns normally with `(is_valid=True, [], normalized record)`,
regardless of the values of tags, seo_keywords and read_time; with a
non-string optional field it can instead raise a type error. -/
theorem claim_C2 (pd : PostData) (cfg : SiteConfig)
    (ht : ∃ s, pd.title = some (.str s) ∧ pyStrip s.data ≠ [])
    (hc : ∃ s, pd.content = some (.str s) ∧ pyStrip s.data ≠ [])
    (he : ∃ s, pd.excerpt = some (.str s) ∧ pyStrip s.data ≠ [])
    (hcat : pd.category = Option.none ∨ ∃ s, pd.category = some (.str s))
    (hmt : pd.meta_title = Option.none ∨ ∃ s, pd.meta_title = some (.str s))
    (hmd : pd.meta_description = Option.none ∨ ∃ s, pd.meta_description = some (.str s)) :
    ∃ fx, validate_post_data pd cfg = .ok (true, [], fx) := by
  obtain ⟨ts, hT, hTs⟩ := ht
  obtain ⟨cs, hC, hCs⟩ := hc
  obtain ⟨es, hE, hEs⟩ := he
  have h0 : requiredErrors pd = [] := by
    unfold requiredErrors
    rw [hT, hC, hE, requiredMissing_str hTs, requiredMissing_str hCs,
      requiredMissing_str hEs]
    simp
  obtain ⟨w1, e1⟩ := truncField_ok_exists 70 67 (Or.inr ⟨ts, hT⟩)
  obtain ⟨w2, e2⟩ := truncField_ok_exists 200 197 (Or.inr ⟨es, hE⟩)
  obtain ⟨w3, e3⟩ := truncField_ok_exists 70 67 hmt
  obtain ⟨w4, e4⟩ := truncField_ok_exists 200 197 hmd
  have e5 : ∃ w, categoryStep pd.category cfg = .ok w := by
    rcases hcat with hn | ⟨s, hs⟩
    · rw [hn]
      exact categoryStep_none_ok cfg
    · rw [hs, categoryStep_str]
      exact ⟨_, rfl⟩
  obtain ⟨w5, e5⟩ := e5
  have e6 : contentCheck pd.content = .ok () := by
    rw [hC]
    rfl
  exact ⟨_, validate_ok_build h0 e1 e2 e3 e4 e5 e6⟩

/-- Witness for C2 (amended): a record with number-typed tags,
boolean seo_keywords and a null read_time is still accepted. -/
theorem claim_C2_witness :
    ∃ fx, validate_post_data pdC2w mfoConfig = .ok (true, [], fx) :=
  claim_C2 pdC2w mfoConfig ⟨"Т", rfl, by decide⟩ ⟨"Текст", rfl, by decide⟩
    ⟨"А", rfl, by decide⟩ (Or.inl rfl) (Or.inl rfl) (Or.inl rfl)

/-! ## Claim C8: create_slug idempotence -/

theorem hyphen_iff (c : Char) : c = '-' ↔ c.toNat = 45 :=
  ⟨fun h => by rw [h]; rfl, fun h => charEq_of_toNat (by rw [h]; rfl)⟩

theorem slugChar_cases {c : Char} (h : slugChar c = true) :
    (97 ≤ c.toNat ∧ c.toNat ≤ 122) ∨ (48 ≤ c.toNat ∧ c.toNat ≤ 57) ∨ c.toNat = 45 := by
  simp only [slugChar, Bool.or_eq_true, Bool.and_eq_true, decide_eq_true_eq,
    hyphen_iff] at h
  tauto

theorem slugChar_keep {c : Char} (h : slugChar c = true) : keepChar c = true := by
  rcases slugChar_cases h with h | h | h <;>
    simp [keepChar, pyWs, hyphen_iff] <;> omega

theorem slugChar_noWs {c : Char} (h : slugChar c = true) : pyWs c = false := by
  rcases slugChar_cases h with h | h | h <;>
    simp [pyWs] <;> omega

theorem slugChar_lt1024 {c : Char} (h : slugChar c = true) : c.toNat < 1024 := by
  rcases slugChar_cases h with h | h | h <;> omega

theorem hyphen_slugChar : slugChar '-' = true := by decide

theorem pyLower_id_of_slugChar {c : Char} (h : slugChar c = true) : pyLower c = c := by
  have hn : (97 ≤ c.toNat ∧ c.toNat ≤ 122) ∨ (48 ≤ c.toNat ∧ c.toNat ≤ 57) ∨
      c.toNat = 45 := slugChar_cases h
  unfold pyLower
  rw [if_neg (by omega), if_neg (by omega), if_neg (by omega)]

theorem pyLower_notUpper (c : Char) :
    ¬(65 ≤ (pyLower c).toNat ∧ (pyLower c).toNat ≤ 90) := by
  unfold pyLower
  by_cases h1 : 65 ≤ c.toNat ∧ c.toNat ≤ 90
  · rw [if_pos h1, charToNat_ofNat _ (by omega)]
    omega
  · rw [if_neg h1]
    by_cases h2 : 1040 ≤ c.toNat ∧ c.toNat ≤ 1071
    · rw [if_pos h2, charToNat_ofNat _ (by omega)]
      omega
    · rw [if_neg h2]
      by_cases h3 : c.toNat = 1025
      · rw [if_pos h3, charToNat_ofNat _ (by omega)]
        omega
      · rw [if_neg h3]
        exact h1

theorem replaceChar_id {key : Char} {val l : List Char} (h : ∀ c ∈ l, c ≠ key) :
    replaceChar key val l = l := by
  induction l with
  | nil => rfl
  | cons c cs ih =>
    unfold replaceChar
    rw [if_neg (h c (List.mem_cons_self c cs)),
      ih (fun d hd => h d (List.mem_cons_of_mem c hd))]
    rfl

theorem mem_replaceChar {key : Char} {val l : List Char} {c : Char}
    (h : c ∈ replaceChar key val l) : c ∈ val ∨ c ∈ l := by
  induction l with
  | nil => simp [replaceChar] at h
  | cons d ds ih =>
    unfold replaceChar at h
    rw [List.mem_append] at h
    rcases h with h | h
    · by_cases hd : d = key
      · rw [if_pos hd] at h
        exact Or.inl h
      · rw [if_neg hd] at h
        simp at h
        subst h
        exact Or.inr (List.mem_cons_self _ _)
    · rcases ih h with h | h
      · exact Or.inl h
      · exact Or.inr (List.mem_cons_of_mem _ h)

theorem foldl_replace_pres (P : Char → Prop) :
    ∀ (m : List (Char × List Char)) (l : List Char),
      (∀ kv ∈ m, ∀ c ∈ kv.2, P c) → (∀ c ∈ l, P c) →
      ∀ c ∈ m.foldl (fun acc kv => replaceChar kv.1 kv.2 acc) l, P c := by
  intro m
  induction m with
  | nil => intro l _ hl; exact hl
  | cons kv ms ih =>
    intro l hm hl
    refine ih (replaceChar kv.1 kv.2 l) (fun p hp => hm p (List.mem_cons_of_mem _ hp)) ?_
    intro c hc
    rcases mem_replaceChar hc with h | h
    · exact hm kv (List.mem_cons_self _ _) c h
    · exact hl c h

theorem foldl_replace_id :
    ∀ (m : List (Char × List Char)) (l : List Char),
      (∀ kv ∈ m, ∀ c ∈ l, c ≠ kv.1) →
      m.foldl (fun acc kv => replaceChar kv.1 kv.2 acc) l = l := by
  intro m
  induction m with
  | nil => intro l _; rfl
  | cons kv ms ih =>
    intro l h
    have h1 : replaceChar kv.1 kv.2 l = l :=
      replaceChar_id (fun c hc => h kv (List.mem_cons_self _ _) c hc)
    show List.foldl _ (replaceChar kv.1 kv.2 l) ms = l
    rw [h1]
    exact ih l (fun p hp c hc => h p (List.mem_cons_of_mem _ hp) c hc)

theorem translit_notUpper {l : List Char}
    (h : ∀ c ∈ l, ¬(65 ≤ c.toNat ∧ c.toNat ≤ 90)) :
    ∀ c ∈ translit l, ¬(65 ≤ c.toNat ∧ c.toNat ≤ 90) := by
  refine foldl_replace_pres _ translitMap l ?_ h
  decide

theorem translit_id {l : List Char} (h : ∀ c ∈ l, c.toNat < 1024) :
    translit l = l := by
  refine foldl_replace_id translitMap l ?_
  have hkeys : ∀ kv ∈ translitMap, 1072 ≤ kv.1.toNat := by decide
  intro kv hkv c hc heq
  have := hkeys kv hkv
  have := h c hc
  rw [heq] at *
  omega

theorem keep_notUpper_good {c : Char} (hk : keepChar c = true)
    (hu : ¬(65 ≤ c.toNat ∧ c.toNat ≤ 90)) :
    slugChar c = true ∨ pyWs c = true := by
  simp only [keepChar, slugChar, pyWs, Bool.or_eq_true, Bool.and_eq_true,
    decide_eq_true_eq, hyphen_iff] at hk ⊢
  omega

theorem collapseWs_chars {l : List Char}
    (h : ∀ c ∈ l, slugChar c = true ∨ pyWs c = true) :
    ∀ (b : Bool) (c : Char), c ∈ collapseGo pyWs b l → slugChar c = true := by
  induction l with
  | nil => intro b c hc; simp [collapseGo] at hc
  | cons d ds ih =>
    intro b c hc
    have hds : ∀ c ∈ ds, slugChar c = true ∨ pyWs c = true :=
      fun e he => h e (List.mem_cons_of_mem _ he)
    unfold collapseGo at hc
    by_cases hd : pyWs d = true
    · rw [if_pos hd] at hc
      cases b with
      | true =>
        simp only [if_true] at hc
        exact ih hds true c hc
      | false =>
        simp only [Bool.false_eq_true, if_false] at hc
        rcases List.mem_cons.mp hc with rfl | hc
        · exact hyphen_slugChar
        · exact ih hds true c hc
    · rw [if_neg hd] at hc
      rcases List.mem_cons.mp hc with rfl | hc
      · rcases h c (List.mem_cons_self _ _) with hs | hw
        · exact hs
        · exact absurd hw hd
      · exact ih hds false c hc

theorem collapseHyp_chars {l : List Char}
    (h : ∀ c ∈ l, slugChar c = true) :
    ∀ (b : Bool) (c : Char), c ∈ collapseGo isHyp b l → slugChar c = true := by
  induction l with
  | nil => intro b c hc; simp [collapseGo] at hc
  | cons d ds ih =>
    intro b c hc
    have hds : ∀ c ∈ ds, slugChar c = true :=
      fun e he => h e (List.mem_cons_of_mem _ he)
    unfold collapseGo at hc
    by_cases hd : isHyp d = true
    · rw [if_pos hd] at hc
      cases b with
      | true =>
        simp only [if_true] at hc
        exact ih hds true c hc
      | false =>
        simp only [Bool.false_eq_true, if_false] at hc
        rcases List.mem_cons.mp hc with rfl | hc
        · exact hyphen_slugChar
        · exact ih hds true c hc
    · rw [if_neg hd] at hc
      rcases List.mem_cons.mp hc with rfl | hc
      · exact h c (List.mem_cons_self _ _)
      · exact ih hds false c hc

theorem noDub_cons2 {c d : Char} {t : List Char} :
    noDub (c :: d :: t) = true ↔ ¬(c = '-' ∧ d = '-') ∧ noDub (d :: t) = true := by
  rw [show noDub (c :: d :: t) =
    (!(decide (c = '-') && decide (d = '-')) && noDub (d :: t)) from rfl]
  simp
  tauto

theorem noDub_tail {c : Char} {ys : List Char} (h : noDub (c :: ys) = true) :
    noDub ys = true := by
  cases ys with
  | nil => rfl
  | cons d t => exact (noDub_cons2.mp h).2

theorem noDub_cons_left {c : Char} {ys : List Char} (h : ¬c = '-')
    (h2 : noDub ys = true) : noDub (c :: ys) = true := by
  cases ys with
  | nil => rfl
  | cons d t => exact noDub_cons2.mpr ⟨fun hp => h hp.1, h2⟩

theorem noDub_cons_hyph {ys : List Char} (h1 : ys.head? ≠ some '-')
    (h2 : noDub ys = true) : noDub ('-' :: ys) = true := by
  cases ys with
  | nil => rfl
  | cons d t =>
    refine noDub_cons2.mpr ⟨fun hp => h1 ?_, h2⟩
    rw [List.head?_cons, hp.2]

theorem collapseHyp_good (l : List Char) :
    (∀ b, noDub (collapseGo isHyp b l) = true) ∧
    (collapseGo isHyp true l).head? ≠ some '-' := by
  induction l with
  | nil => exact ⟨fun b => rfl, by simp [collapseGo]⟩
  | cons c cs ih =>
    constructor
    · intro b
      unfold collapseGo
      by_cases hc : isHyp c = true
      · rw [if_pos hc]
        cases b with
        | true =>
          simp only [if_true]
          exact ih.1 true
        | false =>
          simp only [Bool.false_eq_true, if_false]
          exact noDub_cons_hyph ih.2 (ih.1 true)
      · rw [if_neg hc]
        have : ¬c = '-' := by
          simpa [isHyp] using hc
        exact noDub_cons_left this (ih.1 false)
    · unfold collapseGo
      by_cases hc : isHyp c = true
      · rw [if_pos hc]
        simp only [if_true]
        exact ih.2
      · rw [if_neg hc]
        have : ¬c = '-' := by simpa [isHyp] using hc
        rw [List.head?_cons]
        intro h
        exact this (by injection h)

theorem headDropWhile {p : Char → Bool} {l : List Char} {c : Char}
    (h : (l.dropWhile p).head? = some c) : p c = false := by
  induction l with
  | nil => simp [List.dropWhile] at h
  | cons a t ih =>
    rw [List.dropWhile_cons] at h
    by_cases hp : p a = true
    · rw [if_pos hp] at h
      exact ih h
    · rw [if_neg hp] at h
      rw [List.head?_cons] at h
      obtain rfl : a = c := by injection h
      exact Bool.eq_false_iff.mpr hp

theorem noDub_dropWhile {l : List Char} (h : noDub l = true) :
    noDub (l.dropWhile isHyp) = true := by
  induction l with
  | nil => rfl
  | cons c cs ih =>
    rw [List.dropWhile_cons]
    by_cases hc : isHyp c = true
    · rw [if_pos hc]
      exact ih (noDub_tail h)
    · rw [if_neg hc]
      exact h

theorem dropTrail_cons_nil {d : Char} {ds : List Char} (hd : dropTrail ds = []) :
    dropTrail (d :: ds) = if d = '-' then [] else [d] := by
  unfold dropTrail
  rw [hd]

theorem dropTrail_cons_cons {d g : Char} {ds gs : List Char}
    (hd : dropTrail ds = g :: gs) : dropTrail (d :: ds) = d :: g :: gs := by
  unfold dropTrail
  rw [hd]

theorem mem_dropTrail {l : List Char} {c : Char} (h : c ∈ dropTrail l) : c ∈ l := by
  induction l with
  | nil => simp [dropTrail] at h
  | cons d ds ih =>
    unfold dropTrail at h
    cases hd : dropTrail ds with
    | nil =>
      rw [hd] at h
      by_cases hdh : d = '-'
      · rw [if_pos hdh] at h
        simp at h
      · rw [if_neg hdh] at h
        simp at h
        subst h
        exact List.mem_cons_self _ _
    | cons g gs =>
      rw [hd] at h
      rcases List.mem_cons.mp h with rfl | h
      · exact List.mem_cons_self _ _
      · exact List.mem_cons_of_mem _ (ih (hd ▸ h))

theorem dropTrail_head? {l : List Char} (h : dropTrail l ≠ []) :
    (dropTrail l).head? = l.head? := by
  cases l with
  | nil => rfl
  | cons d ds =>
    cases hd : dropTrail ds with
    | nil =>
      rw [dropTrail_cons_nil hd] at h ⊢
      by_cases hdh : d = '-'
      · rw [if_pos hdh] at h
        exact absurd rfl h
      · rw [if_neg hdh]
        rfl
    | cons g gs =>
      rw [dropTrail_cons_cons hd]
      rfl

theorem noDub_dropTrail {l : List Char} (h : noDub l = true) :
    noDub (dropTrail l) = true := by
  induction l with
  | nil => rfl
  | cons c cs ih =>
    cases hd : dropTrail cs with
    | nil =>
      rw [dropTrail_cons_nil hd]
      by_cases hc : c = '-'
      · rw [if_pos hc]
        rfl
      · rw [if_neg hc]
        rfl
    | cons g gs =>
      rw [dropTrail_cons_cons hd]
      have hnd : noDub (g :: gs) = true := hd ▸ ih (noDub_tail h)
      cases cs with
      | nil => simp [dropTrail] at hd
      | cons e es =>
        have hge : g = e := by
          have h1 : (dropTrail (e :: es)).head? = (e :: es).head? := by
            refine dropTrail_head? ?_
            rw [hd]
            intro hx
            cases hx
          rw [hd, List.head?_cons, List.head?_cons] at h1
          injection h1
        have hpair : ¬(c = '-' ∧ e = '-') := (noDub_cons2.mp h).1
        refine noDub_cons2.mpr ⟨?_, hnd⟩
        rintro ⟨hc, hg⟩
        exact hpair ⟨hc, by rw [← hge]; exact hg⟩

theorem dropTrail_getLast {l : List Char} : (dropTrail l).getLast? ≠ some '-' := by
  induction l with
  | nil => simp [dropTrail]
  | cons c cs ih =>
    cases hd : dropTrail cs with
    | nil =>
      rw [dropTrail_cons_nil hd]
      by_cases hc : c = '-'
      · rw [if_pos hc]
        simp
      · rw [if_neg hc]
        simp only [List.getLast?_singleton]
        intro h
        exact hc (by injection h)
    | cons g gs =>
      rw [dropTrail_cons_cons hd, List.getLast?_cons_cons]
      rw [hd] at ih
      exact ih

theorem dropTrail_id {l : List Char} (h : l.getLast? ≠ some '-') :
    dropTrail l = l := by
  induction l with
  | nil => rfl
  | cons c cs ih =>
    cases cs with
    | nil =>
      rw [@dropTrail_cons_nil c [] rfl]
      rw [if_neg]
      intro hc
      apply h
      rw [List.getLast?_singleton, hc]
    | cons d ds =>
      have hih : dropTrail (d :: ds) = d :: ds := by
        apply ih
        intro hx
        apply h
        rw [List.getLast?_cons_cons]
        exact hx
      rw [dropTrail_cons_cons hih]

theorem dropWhile_hyp_id {l : List Char} (h : l.head? ≠ some '-') :
    l.dropWhile isHyp = l := by
  cases l with
  | nil => rfl
  | cons c cs =>
    rw [List.dropWhile_cons, if_neg]
    intro hc
    apply h
    rw [List.head?_cons]
    simp only [isHyp, decide_eq_true_eq] at hc
    rw [hc]

theorem slugForm_parts {x : List Char} (h : slugForm x = true) :
    (∀ c ∈ x, slugChar c = true) ∧ noDub x = true ∧
    x.head? ≠ some '-' ∧ x.getLast? ≠ some '-' := by
  simp only [slugForm, Bool.and_eq_true, List.all_eq_true, Bool.not_eq_true',
    decide_eq_false_iff_not] at h
  exact ⟨h.1.1.1, h.1.1.2, h.1.2, h.2⟩

theorem slugForm_intro {x : List Char} (h1 : ∀ c ∈ x, slugChar c = true)
    (h2 : noDub x = true) (h3 : x.head? ≠ some '-') (h4 : x.getLast? ≠ some '-') :
    slugForm x = true := by
  simp only [slugForm, Bool.and_eq_true, List.all_eq_true, Bool.not_eq_true',
    decide_eq_false_iff_not]
  exact ⟨⟨⟨h1, h2⟩, h3⟩, h4⟩

theorem map_pyLower_id {l : List Char} (h : ∀ c ∈ l, slugChar c = true) :
    l.map pyLower = l := by
  induction l with
  | nil => rfl
  | cons c cs ih =>
    rw [List.map_cons, pyLower_id_of_slugChar (h c (List.mem_cons_self _ _)),
      ih (fun d hd => h d (List.mem_cons_of_mem _ hd))]

theorem collapseWs_id {l : List Char} (h : ∀ c ∈ l, pyWs c = false) :
    collapseGo pyWs false l = l := by
  induction l with
  | nil => rfl
  | cons c cs ih =>
    unfold collapseGo
    rw [if_neg (by rw [h c (List.mem_cons_self _ _)]; simp),
      ih (fun d hd => h d (List.mem_cons_of_mem _ hd))]

theorem collapseHyp_id {l : List Char} (h : noDub l = true) :
    collapseGo isHyp false l = l ∧
    (l.head? ≠ some '-' → collapseGo isHyp true l = l) := by
  induction l with
  | nil => exact ⟨rfl, fun _ => rfl⟩
  | cons c cs ih =>
    have hcs := ih (noDub_tail h)
    constructor
    · unfold collapseGo
      by_cases hc : isHyp c = true
      · rw [if_pos hc]
        simp only [Bool.false_eq_true, if_false]
        have hcch : c = '-' := by simpa [isHyp] using hc
        have hhead : cs.head? ≠ some '-' := by
          cases cs with
          | nil => simp
          | cons d ds =>
            rw [List.head?_cons]
            intro hx
            obtain rfl : d = '-' := by injection hx
            subst hcch
            exact (noDub_cons2.mp h).1 ⟨rfl, rfl⟩
        rw [hcs.2 hhead, hcch]
      · rw [if_neg hc, hcs.1]
    · intro hh
      unfold collapseGo
      by_cases hc : isHyp c = true
      · exfalso
        apply hh
        rw [List.head?_cons]
        have : c = '-' := by simpa [isHyp] using hc
        rw [this]
      · rw [if_neg hc, hcs.1]

theorem create_slug_chars_slugForm (l : List Char) :
    slugForm (create_slug_chars l) = true := by
  set l3 := List.filter keepChar (translit (l.map pyLower)) with hl3
  set l4 := collapseGo pyWs false l3 with hl4
  set l5 := collapseGo isHyp false l4 with hl5
  have h3good : ∀ c ∈ l3, slugChar c = true ∨ pyWs c = true := by
    intro c hc
    have hk : keepChar c = true := List.of_mem_filter hc
    have hmem : c ∈ translit (l.map pyLower) := List.mem_of_mem_filter hc
    have hu : ¬(65 ≤ c.toNat ∧ c.toNat ≤ 90) := by
      refine translit_notUpper ?_ c hmem
      intro d hd
      obtain ⟨e, -, rfl⟩ := List.mem_map.mp hd
      exact pyLower_notUpper e
    exact keep_notUpper_good hk hu
  have h4chars : ∀ c ∈ l4, slugChar c = true := fun c hc =>
    collapseWs_chars h3good false c hc
  have h5chars : ∀ c ∈ l5, slugChar c = true := fun c hc =>
    collapseHyp_chars h4chars false c hc
  have h5nd : noDub l5 = true := (collapseHyp_good l4).1 false
  have h6 : create_slug_chars l = dropTrail (l5.dropWhile isHyp) := rfl
  rw [h6]
  refine slugForm_intro ?_ ?_ ?_ ?_
  · intro c hc
    exact h5chars c ((List.dropWhile_sublist _).subset (mem_dropTrail hc))
  · exact noDub_dropTrail (noDub_dropWhile h5nd)
  · cases hh : (dropTrail (l5.dropWhile isHyp)).head? with
    | none => simp
    | some c =>
      have hne : dropTrail (l5.dropWhile isHyp) ≠ [] := by
        intro hx
        rw [hx] at hh
        simp at hh
      rw [dropTrail_head? hne] at hh
      have := headDropWhile hh
      simp only [isHyp, decide_eq_false_iff_not] at this
      intro hx
      exact this (by injection hx)
  · exact dropTrail_getLast

theorem create_slug_chars_id {l : List Char} (h : slugForm l = true) :
    create_slug_chars l = l := by
  obtain ⟨hall, hnd, hh, hl⟩ := slugForm_parts h
  unfold create_slug_chars stripHyphens
  rw [map_pyLower_id hall, translit_id (fun c hc => slugChar_lt1024 (hall c hc)),
    List.filter_eq_self.mpr (fun c hc => slugChar_keep (hall c hc)),
    collapseWs_id (fun c hc => slugChar_noWs (hall c hc)),
    (collapseHyp_id hnd).1, dropWhile_hyp_id hh, dropTrail_id hl]

/-- C8.  `create_slug` is idempotent on all inputs, and returns any
string already in slug form (lowercase latin letters, digits, single
interior hyphens) unchanged. -/
theorem create_slug_eq (x : String) :
    create_slug x = String.mk (create_slug_chars x.data) := rfl

theorem create_slug_mk (l : List Char) :
    create_slug (String.mk l) = String.mk (create_slug_chars l) := rfl

theorem claim_C8 :
    (∀ x : String, create_slug (create_slug x) = create_slug x) ∧
    (∀ x : String, slugForm x.data = true → create_slug x = x) := by
  constructor
  · intro x
    rw [create_slug_eq x, create_slug_mk,
      create_slug_chars_id (create_slug_chars_slugForm x.data)]
  · intro x h
    rw [create_slug_eq, create_slug_chars_id h]

/-- Witness for C8 at a concrete slug-form string. -/
theorem claim_C8_witness :
    slugForm ("kak-poluchit-zaym-2026" : String).data = true ∧
    create_slug "kak-poluchit-zaym-2026" = "kak-poluchit-zaym-2026" :=
  ⟨by decide, claim_C8.2 "kak-poluchit-zaym-2026" (by decide)⟩

end SPG
